import Mathlib

/-!
# Verification of the broadcast-event-system core

Shallow embedding of the two pub/sub services of the repository:

* `EventService` (src/core/EventService.ts): an in-process event bus backed by
  `Map<string, Set<EventListener>>`.
* `BroadcastService` (src/core/BroadcastService.ts): a cross-context bus backed by
  `Map<string, BroadcastChannel>` (transport handles) and
  `Map<string, Map<string, handler>>` (listener adapters), plus a listener-id counter.

JavaScript `Map`s are modelled as insertion-ordered association lists
(`List (κ × β)`): `set` on a present key replaces the value in place, `set` on an
absent key appends at the end, `delete` removes the (unique) entry — exactly the
observable ordering semantics of the ECMAScript `Map`.  JavaScript `Set`s are
modelled as duplicate-free lists in insertion order.  Listener / callback function
references are modelled by `Nat` identity tokens; a listener body is modelled by a
behaviour function `Nat → Option String` (`none` = returns normally, `some e` =
throws `e`).  `try { … } catch { console.error(…) }` is modelled in the `Except`
monad via `tryCatch`, with the `console.error` output collected in a log list.
-/

namespace BES

/-! ## JS `Map` / `Set` primitives -/

/-- `Map.get`: value of the first (and, for duplicate-free keys, only) entry
with key `k`. -/
def mapLookup {β : Type} : List (String × β) → String → Option β
  | [], _ => none
  | (k', v) :: rest, k => if k = k' then some v else mapLookup rest k

/-- `Map.set`: replace the value of an existing key in place, otherwise append
the new entry at the end (ECMAScript insertion-order semantics). -/
def mapSet {β : Type} : List (String × β) → String → β → List (String × β)
  | [], k, v => [(k, v)]
  | (k', v') :: rest, k, v =>
      if k = k' then (k, v) :: rest else (k', v') :: mapSet rest k v

/-- `Map.delete`: remove the entry with key `k` (the first one; keys of a JS map
are unique). -/
def mapDelete {β : Type} : List (String × β) → String → List (String × β)
  | [], _ => []
  | (k', v') :: rest, k => if k = k' then rest else (k', v') :: mapDelete rest k

/-- `Set.add`: append the element if it is not already present. -/
def setAdd (s : List Nat) (l : Nat) : List Nat :=
  if l ∈ s then s else s ++ [l]

/-- `Set.delete`: remove the element if present. -/
def setDelete (s : List Nat) (l : Nat) : List Nat :=
  s.erase l

/-! ## The local event bus (`EventService`) -/

/-- A listener reference (JS function identity). -/
abbrev Listener := Nat

/-- The payload envelope `{ type, data }` built by `EventService.emit`
(src/types/events.ts, `EventPayload<T>`). -/
structure EventPayload (α : Type) where
  type : String
  data : α
deriving DecidableEq, Repr

/-- State of `EventService`: `private listeners: Map<string, Set<EventListener>>`. -/
structure EventService where
  listeners : List (String × List Listener)
deriving DecidableEq, Repr

/-- `new EventService()`. -/
def EventService.empty : EventService := ⟨[]⟩

/-- `EventService.on`: create the (empty) set for the event type if absent, then
`Set.add` the listener to it. -/
def EventService.on (s : EventService) (n : String) (l : Listener) : EventService :=
  match mapLookup s.listeners n with
  | none => ⟨mapSet s.listeners n (setAdd [] l)⟩
  | some ls => ⟨mapSet s.listeners n (setAdd ls l)⟩

/-- `EventService.off`: `Set.delete` the listener from the event type's set if the
set exists; drop the map entry entirely when the set becomes empty. -/
def EventService.off (s : EventService) (n : String) (l : Listener) : EventService :=
  match mapLookup s.listeners n with
  | none => s
  | some ls =>
      let ls' := setDelete ls l
      if ls'.length = 0 then ⟨mapDelete s.listeners n⟩
      else ⟨mapSet s.listeners n ls'⟩

/-- `EventService.clear`: delete the event type's entry. -/
def EventService.clear (s : EventService) (n : String) : EventService :=
  ⟨mapDelete s.listeners n⟩

/-- `EventService.clearAll`: clear the whole map. -/
def EventService.clearAll (_ : EventService) : EventService := ⟨[]⟩

/-- `EventService.listenerCount`: `this.listeners.get(eventType)?.size || 0`. -/
def EventService.listenerCount (s : EventService) (n : String) : Nat :=
  match mapLookup s.listeners n with
  | none => 0
  | some ls => ls.length

/-- `EventService.eventTypes`: `Array.from(this.listeners.keys())`. -/
def EventService.eventTypes (s : EventService) : List String :=
  s.listeners.map Prod.fst

/-- The behaviour of listener bodies: `none` = the callback returns normally,
`some e` = the callback throws `e` when invoked. -/
abbrev Behaviour := Listener → Option String

/-- The `console.error` line produced by the `catch` in `EventService.emit`. -/
def listenerErrMsg (n e : String) : String :=
  "Error in event listener for \x22" ++ n ++ "\x22:" ++ e

/-- Calling `listener(payload)`: raises in the `Except` monad iff the behaviour
says this listener throws. -/
def invokeListener (beh : Behaviour) (l : Listener) : Except String Unit :=
  match beh l with
  | none => Except.ok ()
  | some e => Except.error e

/-- The body of `eventListeners.forEach` in `EventService.emit`: invoke one
listener inside `try { … } catch { console.error(…) }`, recording the invocation
(listener paired with the envelope it received) and any caught error. -/
def emitStep (beh : Behaviour) (p : EventPayload α)
    (acc : List (Listener × EventPayload α) × List String) (l : Listener) :
    Except String (List (Listener × EventPayload α) × List String) :=
  tryCatch
    (do
      invokeListener beh l
      pure (acc.1 ++ [(l, p)], acc.2))
    (fun e => pure (acc.1 ++ [(l, p)], acc.2 ++ [listenerErrMsg p.type e]))

/-- `EventService.emit` as the `Except`-monad computation the JS method denotes:
look the set up, build the envelope once, iterate the listeners.  The result is
the sequence of listener invocations (each with the envelope it was handed)
together with the `console.error` log; an uncaught exception would surface as
`Except.error`. -/
def EventService.emitE (s : EventService) (beh : Behaviour) (n : String) (p : α) :
    Except String (List (Listener × EventPayload α) × List String) :=
  match mapLookup s.listeners n with
  | none => pure ([], [])
  | some ls => ls.foldlM (emitStep beh ⟨n, p⟩) ([], [])

/-- The (pure) invocation trace of `emit`: which listeners are called, with which
envelope. -/
def EventService.emitTrace (s : EventService) (n : String) (p : α) :
    List (Listener × EventPayload α) :=
  match mapLookup s.listeners n with
  | none => []
  | some ls => ls.map (fun l => (l, ⟨n, p⟩))

/-- The (pure) `console.error` log of `emit` under a given behaviour. -/
def EventService.emitLog (s : EventService) (beh : Behaviour) (n : String) : List String :=
  match mapLookup s.listeners n with
  | none => []
  | some ls => ls.filterMap (fun l => (beh l).map (listenerErrMsg n))

/-! ## The cross-context bus (`BroadcastService`)

A `BroadcastChannel` transport handle is modelled by a `Nat` identity token; a
fresh token is drawn from `handleCounter` each time the code evaluates
`new BroadcastChannel(name)`.  Callback function references are again `Nat`
tokens.  `channel.addEventListener` / `removeEventListener` attach and detach the
wrapped adapter that the `listeners` map also records; delivery of a message is
modelled over that adapter registry. -/

/-- State of `BroadcastService`: the `channels` transport-handle map, the
per-channel `listeners` adapter maps (listener-id → wrapped callback), and the
two sources of freshness (`listenerIdCounter` from the source; `handleCounter`
models `new BroadcastChannel`). -/
structure BroadcastService where
  channels : List (String × Nat)
  listeners : List (String × List (String × Nat))
  listenerIdCounter : Nat
  handleCounter : Nat
deriving DecidableEq, Repr

/-- `new BroadcastService()`. -/
def BroadcastService.init : BroadcastService := ⟨[], [], 0, 0⟩

/-- The listener id `` `listener_${k}` ``. -/
def mkListenerId (k : Nat) : String := "listener_" ++ Nat.repr k

/-- The lazy-create block at the top of `subscribe`:
`if (!this.channels.has(channelName))` then set a fresh transport handle under
the channel name and an empty adapter map next to it. -/
def BroadcastService.subscribeInit (s : BroadcastService) (c : String) : BroadcastService :=
  if (mapLookup s.channels c).isSome then s
  else { s with
    channels := mapSet s.channels c s.handleCounter
    handleCounter := s.handleCounter + 1
    listeners := mapSet s.listeners c [] }

/-- `BroadcastService.subscribe`.  Mirrors the source line by line: lazily create
the channel (and, in the same branch, its adapter map); increment the id counter
and format the id; attach the wrapped handler; record it under the id in the
channel's adapter map.  The last step reads
`this.listeners.get(channelName)!.set(listenerId, messageHandler)`: when the
channel exists in `channels` but not in `listeners` (a channel created by
`broadcast`), `get` yields `undefined` and the `.set` call throws a `TypeError`.
The method's result is therefore an `Except`, returned next to the mutated
state (field mutations made before the throw persist on the object). -/
def BroadcastService.subscribe (s : BroadcastService) (c : String) (cb : Nat) :
    Except String String × BroadcastService :=
  let s1 := s.subscribeInit c
  let s2 := { s1 with listenerIdCounter := s1.listenerIdCounter + 1 }
  let listenerId := mkListenerId s2.listenerIdCounter
  match mapLookup s2.listeners c with
  | none => (Except.error "TypeError: undefined listener map", s2)
  | some m =>
      (Except.ok listenerId,
       { s2 with listeners := mapSet s2.listeners c (mapSet m listenerId cb) })

/-- `BroadcastService.unsubscribe`: if both the channel handle and its adapter map
exist and the id is present, detach that one adapter and delete its entry;
otherwise do nothing. -/
def BroadcastService.unsubscribe (s : BroadcastService) (c : String) (lid : String) :
    BroadcastService :=
  match mapLookup s.channels c, mapLookup s.listeners c with
  | some _, some m =>
      match mapLookup m lid with
      | some _ => { s with listeners := mapSet s.listeners c (mapDelete m lid) }
      | none => s
  | _, _ => s

/-- The `console.error` line produced by the `catch` in `BroadcastService.broadcast`. -/
def broadcastErrMsg (c e : String) : String :=
  "Error broadcasting to \x22" ++ c ++ "\x22:" ++ e

/-- `channel.postMessage(data)`: the transport either accepts the message or
throws; `sendErr` is the environment's choice. -/
def postMessage (sendErr : Option String) : Except String Unit :=
  match sendErr with
  | none => Except.ok ()
  | some e => Except.error e

/-- `BroadcastService.broadcast` as the `Except`-monad computation the JS method
denotes: lazily create the channel handle (note: no adapter-map entry is
created), then `try { postMessage } catch { console.error(…) }`.  Returns the
post-state and the `console.error` log.  `d` is the (optional) payload handed to
the transport. -/
def BroadcastService.broadcastE (s : BroadcastService) (c : String) (_d : Option α)
    (sendErr : Option String) : Except String (BroadcastService × List String) :=
  let s1 :=
    if (mapLookup s.channels c).isSome then s
    else { s with
      channels := mapSet s.channels c s.handleCounter
      handleCounter := s.handleCounter + 1 }
  tryCatch
    (do
      postMessage sendErr
      pure (s1, []))
    (fun e => pure (s1, [broadcastErrMsg c e]))

/-- The state after `broadcast` (the pure projection of `broadcastE`). -/
def BroadcastService.broadcast (s : BroadcastService) (c : String) : BroadcastService :=
  if (mapLookup s.channels c).isSome then s
  else { s with
    channels := mapSet s.channels c s.handleCounter
    handleCounter := s.handleCounter + 1 }

/-- `BroadcastService.close`: only when both the channel handle and its adapter
map exist, detach every adapter, close the handle, and delete both entries. -/
def BroadcastService.close (s : BroadcastService) (c : String) : BroadcastService :=
  match mapLookup s.channels c, mapLookup s.listeners c with
  | some _, some _ =>
      { s with
        channels := mapDelete s.channels c
        listeners := mapDelete s.listeners c }
  | _, _ => s

/-- `BroadcastService.closeAll`: detach and close everything, then clear both
maps. -/
def BroadcastService.closeAll (s : BroadcastService) : BroadcastService :=
  { s with channels := [], listeners := [] }

/-- `BroadcastService.getActiveChannels`: `Array.from(this.channels.keys())`. -/
def BroadcastService.getActiveChannels (s : BroadcastService) : List String :=
  s.channels.map Prod.fst

/-- `BroadcastService.isChannelActive`: `this.channels.has(channelName)`. -/
def BroadcastService.isChannelActive (s : BroadcastService) (c : String) : Bool :=
  (mapLookup s.channels c).isSome

/-- The `console.error` line produced by the `catch` inside the `messageHandler`
closure built by `subscribe`. -/
def broadcastCbErrMsg (c e : String) : String :=
  "Error in broadcast callback for \x22" ++ c ++ "\x22:" ++ e

/-- Delivery of one transport message on channel `c` to the adapters this bus
registered: each adapter is the `messageHandler` closure from `subscribe`, which
runs `try { callback(event.data) } catch { console.error(…) }`.  `cbBeh` gives
each callback reference's behaviour.  Records each callback invocation (with the
data it received) and the caught-error log. -/
def BroadcastService.deliverE (s : BroadcastService) (cbBeh : Nat → Option String)
    (c : String) (d : α) : Except String (List (Nat × α) × List String) :=
  match mapLookup s.listeners c with
  | none => pure ([], [])
  | some m => m.foldlM
      (fun acc ent =>
        tryCatch
          (do
            invokeListener cbBeh ent.2
            pure (acc.1 ++ [(ent.2, d)], acc.2))
          (fun e => pure (acc.1 ++ [(ent.2, d)], acc.2 ++ [broadcastCbErrMsg c e])))
      ([], [])

/-! ## The operation language of the local bus -/

/-- One public mutating call on an `EventService` (the payload and the listener
behaviours of an `emit` call are irrelevant to the registry: `emit` only reads
the map, and the listeners in scope here do not mutate the registry). -/
inductive EOp where
  | on (n : String) (l : Listener)
  | off (n : String) (l : Listener)
  | emit (n : String)
  | clear (n : String)
  | clearAll

/-- Effect of one call on the registry. -/
def applyEOp (s : EventService) : EOp → EventService
  | .on n l => s.on n l
  | .off n l => s.off n l
  | .emit _ => s
  | .clear n => s.clear n
  | .clearAll => s.clearAll

/-- State after a whole call sequence. -/
def runEOps (s : EventService) (ops : List EOp) : EventService :=
  ops.foldl applyEOp s

/-- Well-formedness of an `EventService` state: the JS map has duplicate-free
keys, and every value is a JS `Set` (duplicate-free list) that is non-empty. -/
def EventService.WF (s : EventService) : Prop :=
  (s.listeners.map Prod.fst).Nodup ∧
  ∀ e ∈ s.listeners, e.2 ≠ [] ∧ e.2.Nodup

instance (s : EventService) : Decidable s.WF := by
  unfold EventService.WF; infer_instance

/-- The decimal digit characters of `n`, fuel-free (most significant first). -/
def decDigits (n : Nat) : List Char :=
  if _h : n < 10 then [Nat.digitChar n]
  else decDigits (n / 10) ++ [Nat.digitChar (n % 10)]
termination_by n
decreasing_by exact Nat.div_lt_self (by omega) (by omega)

/-- Numeric value of a decimal digit character. -/
def decVal (c : Char) : Nat := c.toNat - 48

/-- Parse a decimal digit string back to a number. -/
def parseDec (cs : List Char) : Nat :=
  cs.foldl (fun acc c => acc * 10 + decVal c) 0

/-! ## The operation language of the broadcast bus -/

/-- One public call on a `BroadcastService` over its lifetime.  The payload and
transport outcome of a `broadcast` call do not affect the registry beyond the
lazy channel creation, which `BroadcastService.broadcast` captures. -/
inductive BOp where
  | subscribe (c : String) (cb : Nat)
  | unsubscribe (c : String) (lid : String)
  | broadcast (c : String)
  | close (c : String)
  | closeAll

/-- Effect of one call on the bus state.  For `subscribe` this is the state
component of the method, reached whether or not the call threw (the object's
mutations made before a throw persist). -/
def applyBOp (s : BroadcastService) : BOp → BroadcastService
  | .subscribe c cb => (s.subscribe c cb).2
  | .unsubscribe c lid => s.unsubscribe c lid
  | .broadcast c => s.broadcast c
  | .close c => s.close c
  | .closeAll => s.closeAll

/-- State after a whole call sequence. -/
def runBOps (s : BroadcastService) (ops : List BOp) : BroadcastService :=
  ops.foldl applyBOp s

/-- The listener ids actually returned to callers by one call (empty for
non-`subscribe` calls and for a `subscribe` call that threw). -/
def opResultIds (s : BroadcastService) : BOp → List String
  | .subscribe c cb =>
      match (s.subscribe c cb).1 with
      | Except.ok id => [id]
      | Except.error _ => []
  | _ => []

/-- All listener ids returned to callers over a call sequence. -/
def collectIds (s : BroadcastService) : List BOp → List String
  | [] => []
  | op :: ops => opResultIds s op ++ collectIds (applyBOp s op) ops

/-- The (pure) invocation trace of message delivery on the broadcast bus. -/
def BroadcastService.deliverTrace (s : BroadcastService) (c : String) (d : α) :
    List (Nat × α) :=
  ((mapLookup s.listeners c).getD []).map (fun ent => (ent.2, d))

/-- The (pure) `console.error` log of message delivery. -/
def BroadcastService.deliverLog (s : BroadcastService) (cbBeh : Nat → Option String)
    (c : String) : List String :=
  ((mapLookup s.listeners c).getD []).filterMap
    (fun ent => (cbBeh ent.2).map (broadcastCbErrMsg c))

/-- Well-formedness of a `BroadcastService` state: both JS maps have
duplicate-free keys, and every channel with an adapter map also holds a
transport handle (the converse fails for channels created by `broadcast`). -/
def BroadcastService.WFB (s : BroadcastService) : Prop :=
  (s.channels.map Prod.fst).Nodup ∧
  (s.listeners.map Prod.fst).Nodup ∧
  ∀ c', (mapLookup s.listeners c').isSome → (mapLookup s.channels c').isSome

/-! ## Lemmas about the `Map` primitives -/

theorem mapLookup_isSome_iff_mem {β : Type} (m : List (String × β)) (k : String) :
    (mapLookup m k).isSome ↔ k ∈ m.map Prod.fst := by
  induction m with
  | nil => simp [mapLookup]
  | cons e rest ih =>
      obtain ⟨k', v⟩ := e
      by_cases h : k = k' <;> simp [mapLookup, h, ih]

theorem mapLookup_mapSet_self {β : Type} (m : List (String × β)) (k : String) (v : β) :
    mapLookup (mapSet m k v) k = some v := by
  induction m with
  | nil => simp [mapLookup, mapSet]
  | cons e rest ih =>
      obtain ⟨k', v'⟩ := e
      by_cases h : k = k' <;> simp [mapLookup, mapSet, h, ih]

theorem mapLookup_mapSet_ne {β : Type} (m : List (String × β)) (k k' : String) (v : β)
    (h : k ≠ k') : mapLookup (mapSet m k' v) k = mapLookup m k := by
  induction m with
  | nil => simp [mapLookup, mapSet, h]
  | cons e rest ih =>
      obtain ⟨k'', v''⟩ := e
      by_cases h1 : k' = k''
      · subst h1; simp [mapLookup, mapSet, h]
      · by_cases h2 : k = k'' <;> simp [mapLookup, mapSet, h1, h2, ih]

theorem mapSet_lookup_self {β : Type} (m : List (String × β)) (k : String) (v : β)
    (h : mapLookup m k = some v) : mapSet m k v = m := by
  induction m with
  | nil => simp [mapLookup] at h
  | cons e rest ih =>
      obtain ⟨k', v'⟩ := e
      by_cases h1 : k = k'
      · subst h1
        simp [mapLookup] at h
        simp [mapSet, h]
      · simp [mapLookup, h1] at h
        simp [mapSet, h1, ih h]

theorem mapLookup_mapDelete_ne {β : Type} (m : List (String × β)) (k k' : String)
    (h : k ≠ k') : mapLookup (mapDelete m k') k = mapLookup m k := by
  induction m with
  | nil => simp [mapDelete]
  | cons e rest ih =>
      obtain ⟨k'', v''⟩ := e
      by_cases h1 : k' = k''
      · subst h1; simp [mapLookup, mapDelete, h]
      · by_cases h2 : k = k'' <;> simp [mapLookup, mapDelete, h1, h2, ih]

theorem mapLookup_mapDelete_self {β : Type} (m : List (String × β)) (k : String)
    (hnd : (m.map Prod.fst).Nodup) : mapLookup (mapDelete m k) k = none := by
  induction m with
  | nil => simp [mapDelete, mapLookup]
  | cons e rest ih =>
      obtain ⟨k', v'⟩ := e
      simp only [List.map_cons, List.nodup_cons] at hnd
      by_cases h1 : k = k'
      · subst h1
        simp only [mapDelete, if_pos rfl]
        cases ho : mapLookup rest k with
        | none => exact ho
        | some v =>
            exact absurd ((mapLookup_isSome_iff_mem rest k).mp (by simp [ho])) hnd.1
      · simp [mapDelete, mapLookup, Ne.symm h1, h1, ih hnd.2]

theorem mapDelete_keys {β : Type} (m : List (String × β)) (k : String) :
    ((mapDelete m k).map Prod.fst).Sublist (m.map Prod.fst) := by
  induction m with
  | nil => simp [mapDelete]
  | cons e rest ih =>
      obtain ⟨k', v'⟩ := e
      by_cases h : k = k'
      · simp [mapDelete, h]
      · simpa [mapDelete, h] using ih.cons₂ k'

theorem mapDelete_keys_nodup {β : Type} (m : List (String × β)) (k : String)
    (hnd : (m.map Prod.fst).Nodup) : ((mapDelete m k).map Prod.fst).Nodup :=
  (mapDelete_keys m k).nodup hnd

theorem mapSet_keys_mem {β : Type} (m : List (String × β)) (k : String) (v : β)
    (h : (mapLookup m k).isSome) : (mapSet m k v).map Prod.fst = m.map Prod.fst := by
  induction m with
  | nil => simp [mapLookup] at h
  | cons e rest ih =>
      obtain ⟨k', v'⟩ := e
      by_cases h1 : k = k'
      · simp [mapSet, h1]
      · simp only [mapLookup, if_neg h1] at h
        simp [mapSet, h1, ih h]

theorem mapSet_keys_new {β : Type} (m : List (String × β)) (k : String) (v : β)
    (h : mapLookup m k = none) :
    (mapSet m k v).map Prod.fst = m.map Prod.fst ++ [k] := by
  induction m with
  | nil => simp [mapSet]
  | cons e rest ih =>
      obtain ⟨k', v'⟩ := e
      by_cases h1 : k = k'
      · simp [mapLookup, h1] at h
      · simp only [mapLookup, if_neg h1] at h
        simp [mapSet, h1, ih h]

theorem mapSet_keys_nodup {β : Type} (m : List (String × β)) (k : String) (v : β)
    (hnd : (m.map Prod.fst).Nodup) : ((mapSet m k v).map Prod.fst).Nodup := by
  cases ho : mapLookup m k with
  | some v' => rw [mapSet_keys_mem m k v (by simp [ho])]; exact hnd
  | none =>
      rw [mapSet_keys_new m k v ho]
      have hk : k ∉ m.map Prod.fst := by
        intro hmem
        have := (mapLookup_isSome_iff_mem m k).mpr hmem
        simp [ho] at this
      simp [List.nodup_append, hnd, hk]

theorem mapLookup_mapDelete_none {β : Type} (m : List (String × β)) (k k' : String)
    (h : mapLookup m k = none) : mapLookup (mapDelete m k') k = none := by
  by_cases hkk : k = k'
  · subst hkk
    induction m with
    | nil => simp [mapDelete, mapLookup]
    | cons e rest ih =>
        obtain ⟨k'', v''⟩ := e
        by_cases h1 : k = k''
        · simp [mapLookup, h1] at h
        · simp only [mapLookup, if_neg h1] at h
          simp [mapDelete, mapLookup, h1, ih h]
  · rw [mapLookup_mapDelete_ne m k k' hkk]; exact h

theorem mapLookup_mem {β : Type} (m : List (String × β)) (k : String) (v : β)
    (h : mapLookup m k = some v) : (k, v) ∈ m := by
  induction m with
  | nil => simp [mapLookup] at h
  | cons e rest ih =>
      obtain ⟨k', v'⟩ := e
      by_cases h1 : k = k'
      · subst h1
        simp [mapLookup] at h
        simp [h]
      · simp only [mapLookup, if_neg h1] at h
        simp [ih h]

theorem mem_mapSet {β : Type} (m : List (String × β)) (k : String) (v : β) (e : String × β)
    (h : e ∈ mapSet m k v) : e ∈ m ∨ e = (k, v) := by
  induction m with
  | nil => simp [mapSet] at h; simp [h]
  | cons e' rest ih =>
      obtain ⟨k', v'⟩ := e'
      by_cases h1 : k = k'
      · simp only [mapSet, if_pos h1] at h
        rcases List.mem_cons.mp h with h | h
        · right; simp [h]
        · left; simp [h]
      · simp only [mapSet, if_neg h1, List.mem_cons] at h
        rcases h with h | h
        · left; simp [h]
        · rcases ih h with h' | h'
          · left; simp [h']
          · right; exact h'

theorem mapDelete_sublist {β : Type} (m : List (String × β)) (k : String) :
    (mapDelete m k).Sublist m := by
  induction m with
  | nil => simp [mapDelete]
  | cons e rest ih =>
      obtain ⟨k', v'⟩ := e
      by_cases h : k = k'
      · simp [mapDelete, h]
      · simpa [mapDelete, h] using ih.cons₂ (k', v')

/-! ## Lemmas about the `Set` primitives -/

theorem setAdd_nodup (s : List Nat) (l : Nat) (h : s.Nodup) : (setAdd s l).Nodup := by
  unfold setAdd
  by_cases hl : l ∈ s
  · simpa [hl]
  · simp [hl, List.nodup_append, h, List.disjoint_singleton, hl]

theorem setAdd_ne_nil (s : List Nat) (l : Nat) : setAdd s l ≠ [] := by
  unfold setAdd
  by_cases hl : l ∈ s
  · simp only [if_pos hl]
    rintro rfl
    simp at hl
  · simp [hl]

theorem mem_setAdd_self (s : List Nat) (l : Nat) : l ∈ setAdd s l := by
  unfold setAdd
  by_cases hl : l ∈ s <;> simp [hl]

theorem setAdd_mem (s : List Nat) (l : Nat) (hl : l ∈ s) : setAdd s l = s := by
  simp [setAdd, hl]

theorem setAdd_not_mem (s : List Nat) (l : Nat) (hl : l ∉ s) : setAdd s l = s ++ [l] := by
  simp [setAdd, hl]

/-! ## Characterisation of `emit` -/

theorem emitStep_eq {α : Type} (beh : Behaviour) (p : EventPayload α)
    (acc : List (Listener × EventPayload α) × List String) (l : Listener) :
    emitStep beh p acc l =
      Except.ok (acc.1 ++ [(l, p)],
                 acc.2 ++ ((beh l).map (listenerErrMsg p.type)).toList) := by
  unfold emitStep invokeListener
  cases beh l <;>
    simp [tryCatch, tryCatchThe, MonadExceptOf.tryCatch, Except.tryCatch, Bind.bind,
      Except.bind, pure, Except.pure, Option.toList]

theorem foldlM_emitStep {α : Type} (beh : Behaviour) (p : EventPayload α) :
    ∀ (ls : List Listener) (acc : List (Listener × EventPayload α) × List String),
    ls.foldlM (emitStep beh p) acc =
      Except.ok (acc.1 ++ ls.map (fun l => (l, p)),
                 acc.2 ++ ls.filterMap (fun l => (beh l).map (listenerErrMsg p.type))) := by
  intro ls
  induction ls with
  | nil =>
      intro acc
      show Except.ok acc = _
      simp
  | cons l ls ih =>
      intro acc
      rw [List.foldlM_cons, emitStep_eq]
      show ls.foldlM (emitStep beh p) _ = _
      rw [ih]
      cases hb : beh l <;> simp [hb, List.filterMap_cons]

/-- `emit` never surfaces an exception, and its invocation trace and error log
are exactly `emitTrace` / `emitLog`. -/
theorem emitE_eq {α : Type} (s : EventService) (beh : Behaviour) (n : String) (p : α) :
    s.emitE beh n p = Except.ok (s.emitTrace n p, s.emitLog beh n) := by
  unfold EventService.emitE EventService.emitTrace EventService.emitLog
  cases mapLookup s.listeners n with
  | none => rfl
  | some ls =>
      show ls.foldlM (emitStep beh ⟨n, p⟩) ([], []) = _
      rw [foldlM_emitStep]
      simp

theorem WF_on (s : EventService) (n : String) (l : Listener) (h : s.WF) :
    (s.on n l).WF := by
  obtain ⟨hk, hv⟩ := h
  unfold EventService.on
  cases ho : mapLookup s.listeners n with
  | none =>
      refine ⟨mapSet_keys_nodup _ _ _ hk, ?_⟩
      intro e he
      rcases mem_mapSet _ _ _ _ he with h' | h'
      · exact hv e h'
      · subst h'
        refine ⟨?_, ?_⟩
        · show setAdd [] l ≠ []
          exact setAdd_ne_nil [] l
        · show (setAdd [] l).Nodup
          exact setAdd_nodup [] l List.nodup_nil
  | some ls =>
      refine ⟨mapSet_keys_nodup _ _ _ hk, ?_⟩
      intro e he
      rcases mem_mapSet _ _ _ _ he with h' | h'
      · exact hv e h'
      · subst h'
        refine ⟨?_, ?_⟩
        · show setAdd ls l ≠ []
          exact setAdd_ne_nil ls l
        · show (setAdd ls l).Nodup
          exact setAdd_nodup ls l (hv _ (mapLookup_mem _ _ _ ho)).2

theorem WF_off (s : EventService) (n : String) (l : Listener) (h : s.WF) :
    (s.off n l).WF := by
  obtain ⟨hk, hv⟩ := h
  unfold EventService.off
  cases ho : mapLookup s.listeners n with
  | none => exact ⟨hk, hv⟩
  | some ls =>
      by_cases hlen : (setDelete ls l).length = 0
      · simp only [hlen, if_pos rfl]
        exact ⟨mapDelete_keys_nodup _ _ hk,
               fun e he => hv e ((mapDelete_sublist _ _).mem he)⟩
      · simp only [hlen, if_neg hlen]
        refine ⟨mapSet_keys_nodup _ _ _ hk, ?_⟩
        intro e he
        rcases mem_mapSet _ _ _ _ he with h' | h'
        · exact hv e h'
        · subst h'
          refine ⟨fun hnil => hlen (by simpa using congrArg List.length hnil), ?_⟩
          exact (hv _ (mapLookup_mem _ _ _ ho)).2.erase l

theorem WF_applyEOp (s : EventService) (op : EOp) (h : s.WF) : (applyEOp s op).WF :=
  match op with
  | .on n l => WF_on s n l h
  | .off n l => WF_off s n l h
  | .emit _ => h
  | .clear _ =>
      ⟨mapDelete_keys_nodup _ _ h.1,
       fun e he => h.2 e ((mapDelete_sublist _ _).mem he)⟩
  | .clearAll => ⟨List.nodup_nil, fun e he => absurd he (List.not_mem_nil e)⟩

theorem WF_runEOps (ops : List EOp) : (runEOps EventService.empty ops).WF := by
  suffices h : ∀ s, s.WF → (runEOps s ops).WF from
    h _ ⟨by simp [EventService.empty], by simp [EventService.empty]⟩
  induction ops with
  | nil => intro s hs; exact hs
  | cons op ops ih =>
      intro s hs
      exact ih _ (WF_applyEOp s op hs)

/-! ## Injectivity of the decimal listener-id formatting

`mkListenerId k = "listener_" ++ Nat.repr k`; to show distinct counters give
distinct id strings we prove `Nat.repr` injective by exhibiting a left inverse
(a decimal parser). -/

theorem toDigitsCore_eq_decDigits :
    ∀ (fuel n : Nat) (ds : List Char), n < fuel →
      Nat.toDigitsCore 10 fuel n ds = decDigits n ++ ds := by
  intro fuel
  induction fuel with
  | zero => intro n ds h; omega
  | succ fuel ih =>
      intro n ds h
      show (if n / 10 = 0 then Nat.digitChar (n % 10) :: ds
            else Nat.toDigitsCore 10 fuel (n / 10) (Nat.digitChar (n % 10) :: ds)) = _
      by_cases h0 : n / 10 = 0
      · have hn : n < 10 := by omega
        rw [if_pos h0, decDigits, dif_pos hn, Nat.mod_eq_of_lt hn]
        rfl
      · have hn : ¬ n < 10 := by omega
        have hlt : n / 10 < fuel := by
          have hd : n / 10 < n := Nat.div_lt_self (by omega) (by omega)
          omega
        rw [if_neg h0, ih (n / 10) _ hlt]
        conv_rhs => rw [decDigits]
        rw [dif_neg hn, List.append_assoc]
        rfl

theorem decVal_digitChar : ∀ d, d < 10 → decVal (Nat.digitChar d) = d := by decide

theorem parseDec_decDigits (n : Nat) : parseDec (decDigits n) = n := by
  induction n using Nat.strong_induction_on with
  | _ n ih =>
      by_cases h : n < 10
      · rw [decDigits, dif_pos h]
        show 0 * 10 + decVal (Nat.digitChar n) = n
        rw [decVal_digitChar n h]
        omega
      · rw [decDigits, dif_neg h]
        unfold parseDec
        rw [List.foldl_append]
        have ihd := ih (n / 10) (Nat.div_lt_self (by omega) (by omega))
        unfold parseDec at ihd
        rw [ihd]
        show n / 10 * 10 + decVal (Nat.digitChar (n % 10)) = n
        rw [decVal_digitChar _ (Nat.mod_lt n (by omega))]
        omega

theorem repr_eq_decDigits (n : Nat) : Nat.repr n = (decDigits n).asString := by
  show (Nat.toDigitsCore 10 (n + 1) n []).asString = _
  rw [toDigitsCore_eq_decDigits (n + 1) n [] (Nat.lt_succ_self n), List.append_nil]

theorem repr_injective : Function.Injective Nat.repr := by
  intro a b h
  rw [repr_eq_decDigits, repr_eq_decDigits] at h
  have hdig : decDigits a = decDigits b := by
    have := congrArg String.data h
    simpa [List.asString] using this
  have := congrArg parseDec hdig
  rwa [parseDec_decDigits, parseDec_decDigits] at this

theorem mkListenerId_injective : Function.Injective mkListenerId := by
  intro a b h
  unfold mkListenerId at h
  have hdata := congrArg String.data h
  simp only [String.data_append] at hdata
  have : (Nat.repr a).data = (Nat.repr b).data := List.append_cancel_left hdata
  have hrepr : Nat.repr a = Nat.repr b := by
    cases hra : Nat.repr a with
    | mk da =>
        cases hrb : Nat.repr b with
        | mk db =>
            rw [hra, hrb] at this
            simp at this
            rw [this]
  exact repr_injective hrepr

theorem subscribeInit_counter (s : BroadcastService) (c : String) :
    (s.subscribeInit c).listenerIdCounter = s.listenerIdCounter := by
  unfold BroadcastService.subscribeInit
  by_cases hc : (mapLookup s.channels c).isSome <;> simp [hc]

theorem listenerIdCounter_applyBOp (s : BroadcastService) (op : BOp) :
    s.listenerIdCounter ≤ (applyBOp s op).listenerIdCounter := by
  cases op with
  | subscribe c cb =>
      show s.listenerIdCounter ≤ (s.subscribe c cb).2.listenerIdCounter
      unfold BroadcastService.subscribe
      cases h : mapLookup (s.subscribeInit c).listeners c <;>
        simp [h, subscribeInit_counter]
  | unsubscribe c lid =>
      show s.listenerIdCounter ≤ (s.unsubscribe c lid).listenerIdCounter
      unfold BroadcastService.unsubscribe
      cases mapLookup s.channels c <;> cases h2 : mapLookup s.listeners c <;> simp
      cases mapLookup _ lid <;> simp
  | broadcast c =>
      show s.listenerIdCounter ≤ (s.broadcast c).listenerIdCounter
      unfold BroadcastService.broadcast
      by_cases hc : (mapLookup s.channels c).isSome <;> simp [hc]
  | close c =>
      show s.listenerIdCounter ≤ (s.close c).listenerIdCounter
      unfold BroadcastService.close
      cases mapLookup s.channels c <;> cases mapLookup s.listeners c <;> simp
  | closeAll => exact Nat.le_refl _

/-- `subscribe` bumps the id counter by exactly one (also when it throws). -/
theorem listenerIdCounter_subscribe (s : BroadcastService) (c : String) (cb : Nat) :
    (s.subscribe c cb).2.listenerIdCounter = s.listenerIdCounter + 1 := by
  unfold BroadcastService.subscribe
  cases h : mapLookup (s.subscribeInit c).listeners c <;>
    simp [h, subscribeInit_counter]

/-- A successful `subscribe` returns exactly `mkListenerId` of the bumped
counter. -/
theorem subscribe_ok_id (s : BroadcastService) (c : String) (cb : Nat) (id : String)
    (h : (s.subscribe c cb).1 = Except.ok id) :
    id = mkListenerId (s.listenerIdCounter + 1) := by
  unfold BroadcastService.subscribe at h
  cases hm : mapLookup (s.subscribeInit c).listeners c <;>
    simp [hm, subscribeInit_counter] at h
  exact h.symm

theorem listenerIdCounter_runBOps (s : BroadcastService) (ops : List BOp) :
    s.listenerIdCounter ≤ (runBOps s ops).listenerIdCounter := by
  induction ops generalizing s with
  | nil => exact Nat.le_refl _
  | cons op ops ih =>
      exact Nat.le_trans (listenerIdCounter_applyBOp s op) (ih (applyBOp s op))

/-- Every id handed out along a run is the formatted value of a counter strictly
above the start counter, and the counter values are strictly increasing. -/
theorem collectIds_spec (ops : List BOp) :
    ∀ s : BroadcastService, ∃ ks : List Nat,
      collectIds s ops = ks.map mkListenerId ∧
      ks.Pairwise (· < ·) ∧
      ∀ k ∈ ks, s.listenerIdCounter < k ∧ k ≤ (runBOps s ops).listenerIdCounter := by
  induction ops with
  | nil => exact fun s => ⟨[], rfl, List.Pairwise.nil, by simp⟩
  | cons op ops ih =>
      intro s
      obtain ⟨ks, hmap, hpw, hbound⟩ := ih (applyBOp s op)
      have hrun : runBOps s (op :: ops) = runBOps (applyBOp s op) ops := rfl
      cases op with
      | subscribe c cb =>
          have happ : applyBOp s (BOp.subscribe c cb) = (s.subscribe c cb).2 := rfl
          have hcnt := listenerIdCounter_subscribe s c cb
          rw [happ, hcnt] at hbound
          cases hr : (s.subscribe c cb).1 with
          | ok id =>
              refine ⟨(s.listenerIdCounter + 1) :: ks, ?_, ?_, ?_⟩
              · show opResultIds s (.subscribe c cb) ++
                  collectIds (applyBOp s (.subscribe c cb)) ops = _
                rw [hmap]
                simp [opResultIds, hr, subscribe_ok_id s c cb id hr]
              · refine List.pairwise_cons.mpr ⟨?_, hpw⟩
                intro k hk
                have := (hbound k hk).1
                omega
              · intro k hk
                rw [hrun, happ]
                have hmono := listenerIdCounter_runBOps (s.subscribe c cb).2 ops
                rw [hcnt] at hmono
                rcases List.mem_cons.mp hk with h | h
                · subst h
                  exact ⟨Nat.lt_succ_self _, hmono⟩
                · have := hbound k h
                  exact ⟨by omega, this.2⟩
          | error e =>
              refine ⟨ks, ?_, hpw, ?_⟩
              · show opResultIds s (.subscribe c cb) ++
                  collectIds (applyBOp s (.subscribe c cb)) ops = _
                rw [hmap]
                simp [opResultIds, hr]
              · intro k hk
                have := hbound k hk
                rw [hrun, happ]
                exact ⟨by omega, this.2⟩
      | unsubscribe c lid =>
          refine ⟨ks, hmap, hpw, fun k hk => ?_⟩
          have h1 := hbound k hk
          have h2 := listenerIdCounter_applyBOp s (.unsubscribe c lid)
          rw [hrun]
          exact ⟨by omega, h1.2⟩
      | broadcast c =>
          refine ⟨ks, hmap, hpw, fun k hk => ?_⟩
          have h1 := hbound k hk
          have h2 := listenerIdCounter_applyBOp s (.broadcast c)
          rw [hrun]
          exact ⟨by omega, h1.2⟩
      | close c =>
          refine ⟨ks, hmap, hpw, fun k hk => ?_⟩
          have h1 := hbound k hk
          have h2 := listenerIdCounter_applyBOp s (.close c)
          rw [hrun]
          exact ⟨by omega, h1.2⟩
      | closeAll =>
          refine ⟨ks, hmap, hpw, fun k hk => ?_⟩
          have h1 := hbound k hk
          have h2 := listenerIdCounter_applyBOp s .closeAll
          rw [hrun]
          exact ⟨by omega, h1.2⟩

/-! ## Further characterisations of `on`, `off` and `deliverE` -/

theorem lookup_on (s : EventService) (n : String) (l : Listener) :
    mapLookup (s.on n l).listeners n =
      some (setAdd ((mapLookup s.listeners n).getD []) l) := by
  unfold EventService.on
  cases ho : mapLookup s.listeners n with
  | none => simp [mapLookup_mapSet_self]
  | some ls => simp [mapLookup_mapSet_self]

theorem lookup_on_ne (s : EventService) (n n' : String) (l : Listener) (h : n' ≠ n) :
    mapLookup (s.on n l).listeners n' = mapLookup s.listeners n' := by
  unfold EventService.on
  cases mapLookup s.listeners n <;> simp [mapLookup_mapSet_ne _ _ _ _ h]

/-- Adding a listener already in the set leaves the whole state unchanged. -/
theorem on_mem_noop (t : EventService) (n : String) (l : Listener) (ls : List Listener)
    (hlk : mapLookup t.listeners n = some ls) (hmem : l ∈ ls) : t.on n l = t := by
  unfold EventService.on
  rw [hlk]
  show EventService.mk (mapSet t.listeners n (setAdd ls l)) = t
  rw [setAdd_mem ls l hmem, mapSet_lookup_self _ _ _ hlk]

/-- Re-registering a listener reference already present is a no-op on the state. -/
theorem on_on (s : EventService) (n : String) (l : Listener) :
    (s.on n l).on n l = s.on n l :=
  on_mem_noop (s.on n l) n l _ (lookup_on s n l) (mem_setAdd_self _ _)

theorem on_iterate (s : EventService) (n : String) (l : Listener) (k : Nat) :
    (fun t => EventService.on t n l)^[k] (s.on n l) = s.on n l := by
  induction k with
  | zero => rfl
  | succ k ih => rw [Function.iterate_succ_apply, on_on]; exact ih

/-- Folding `on` over fresh distinct listeners extends the single entry. -/
theorem foldl_on_listeners (n : String) :
    ∀ (L M : List Listener), L.Nodup → (∀ x ∈ L, x ∉ M) →
    (L.foldl (fun (t : EventService) l => t.on n l) ⟨[(n, M)]⟩).listeners = [(n, M ++ L)] := by
  intro L
  induction L with
  | nil => intro M _ _; simp
  | cons l L ih =>
      intro M hnd hfresh
      have hstep : (EventService.mk [(n, M)]).on n l = ⟨[(n, M ++ [l])]⟩ := by
        unfold EventService.on
        simp [mapLookup, mapSet, setAdd_not_mem M l (hfresh l (by simp))]
      rw [List.foldl_cons, hstep]
      rw [ih (M ++ [l]) (List.nodup_cons.mp hnd).2 ?_]
      · simp
      · intro x hx
        simp only [List.mem_append, List.mem_singleton]
        rintro (hxm | rfl)
        · exact hfresh x (by simp [hx]) hxm
        · exact (List.nodup_cons.mp hnd).1 hx

/-- Registering a duplicate-free batch of listeners from the empty bus yields a
single registry entry holding exactly that batch. -/
theorem foldl_on_empty (n : String) (L : List Listener) (hnd : L.Nodup) (hne : L ≠ []) :
    (L.foldl (fun (t : EventService) l => t.on n l) EventService.empty).listeners
      = [(n, L)] := by
  cases L with
  | nil => exact absurd rfl hne
  | cons l L =>
      have hstep : EventService.empty.on n l = ⟨[(n, [l])]⟩ := by
        unfold EventService.on EventService.empty
        simp [mapLookup, mapSet, setAdd]
      rw [List.foldl_cons, hstep,
          foldl_on_listeners n L [l] (List.nodup_cons.mp hnd).2 ?_]
      · simp
      · intro x hx
        simp only [List.mem_singleton]
        rintro rfl
        exact (List.nodup_cons.mp hnd).1 hx

theorem foldlM_deliver {α : Type} (cbBeh : Nat → Option String) (c : String) (d : α) :
    ∀ (m : List (String × Nat)) (acc : List (Nat × α) × List String),
    m.foldlM
      (fun acc ent =>
        tryCatch
          (do
            invokeListener cbBeh ent.2
            pure (acc.1 ++ [(ent.2, d)], acc.2))
          (fun e => pure (acc.1 ++ [(ent.2, d)], acc.2 ++ [broadcastCbErrMsg c e]))) acc =
      Except.ok (acc.1 ++ m.map (fun ent => (ent.2, d)),
                 acc.2 ++ m.filterMap (fun ent => (cbBeh ent.2).map (broadcastCbErrMsg c))) := by
  intro m
  induction m with
  | nil =>
      intro acc
      show Except.ok acc = _
      simp
  | cons ent m ih =>
      intro acc
      rw [List.foldlM_cons]
      have hstep :
          (tryCatch
            (do
              invokeListener cbBeh ent.2
              pure (acc.1 ++ [(ent.2, d)], acc.2))
            (fun e => pure (acc.1 ++ [(ent.2, d)], acc.2 ++ [broadcastCbErrMsg c e])) :
              Except String (List (Nat × α) × List String)) =
          Except.ok (acc.1 ++ [(ent.2, d)],
            acc.2 ++ ((cbBeh ent.2).map (broadcastCbErrMsg c)).toList) := by
        unfold invokeListener
        cases cbBeh ent.2 <;>
          simp [tryCatch, tryCatchThe, MonadExceptOf.tryCatch, Except.tryCatch, Bind.bind,
            Except.bind, pure, Except.pure, Option.toList]
      rw [hstep]
      show m.foldlM _ _ = _
      rw [ih]
      cases hb : cbBeh ent.2 <;> simp [hb, List.filterMap_cons]

/-- Delivery never surfaces an exception: each adapter is individually wrapped. -/
theorem deliverE_eq {α : Type} (s : BroadcastService) (cbBeh : Nat → Option String)
    (c : String) (d : α) :
    s.deliverE cbBeh c d = Except.ok (s.deliverTrace c d, s.deliverLog cbBeh c) := by
  unfold BroadcastService.deliverE BroadcastService.deliverTrace BroadcastService.deliverLog
  cases mapLookup s.listeners c with
  | none => rfl
  | some m =>
      show m.foldlM _ ([], []) = _
      rw [foldlM_deliver]
      simp

/-- After `off n l`, the listener `l` is never invoked by an `emit` on `n`. -/
theorem off_emitTrace_not_mem {α : Type} (s : EventService) (hWF : s.WF) (n : String)
    (l : Listener) (p : α) :
    l ∉ ((s.off n l).emitTrace n p).map Prod.fst := by
  unfold EventService.off
  cases ho : mapLookup s.listeners n with
  | none =>
      unfold EventService.emitTrace
      rw [ho]
      simp
  | some ls =>
      have hnodup := (hWF.2 _ (mapLookup_mem _ _ _ ho)).2
      show l ∉ List.map Prod.fst
        ((if (setDelete ls l).length = 0 then EventService.mk (mapDelete s.listeners n)
          else EventService.mk (mapSet s.listeners n (setDelete ls l))).emitTrace n p)
      by_cases hlen : (setDelete ls l).length = 0
      · rw [if_pos hlen]
        unfold EventService.emitTrace
        rw [show (EventService.mk (mapDelete s.listeners n)).listeners
              = mapDelete s.listeners n from rfl,
            mapLookup_mapDelete_self s.listeners n hWF.1]
        simp
      · rw [if_neg hlen]
        unfold EventService.emitTrace
        rw [show (EventService.mk (mapSet s.listeners n (setDelete ls l))).listeners
              = mapSet s.listeners n (setDelete ls l) from rfl,
            mapLookup_mapSet_self]
        simp only [List.map_map]
        intro hmem
        rcases List.mem_map.mp hmem with ⟨x, hx, hfx⟩
        have : x = l := by simpa using hfx
        subst this
        exact hnodup.not_mem_erase hx

/-- In a well-formed state, a name is registered iff its listener count is
positive. -/
theorem mem_eventTypes_iff_pos (s : EventService) (hWF : s.WF) (n : String) :
    n ∈ s.eventTypes ↔ 0 < s.listenerCount n := by
  unfold EventService.eventTypes EventService.listenerCount
  rw [← mapLookup_isSome_iff_mem]
  cases ho : mapLookup s.listeners n with
  | none => simp
  | some ls =>
      have hne := (hWF.2 _ (mapLookup_mem _ _ _ ho)).1
      simp [List.length_pos, hne]

/-- In a well-formed state, a name with zero listeners is absent from
`eventTypes`. -/
theorem listenerCount_zero_not_mem (s : EventService) (hWF : s.WF) (n : String)
    (h : s.listenerCount n = 0) : n ∉ s.eventTypes := by
  intro hmem
  have := (mem_eventTypes_iff_pos s hWF n).mp hmem
  omega

/-! ## The claims -/

/-- **C2.** For every event name `n`, every finite duplicate-free batch `L` of
listener references (none of which mutates the registry when invoked), and
every payload `p`: starting from the empty `EventService` and calling
`on(n, l)` once for each `l ∈ L`, `emit(n, p)` invokes exactly the listeners of
`L`, each exactly once and each with the envelope `{type: n, data: p}`, the
call completes without an escaping exception whatever the listener behaviours,
and `listenerCount(n) = |L|`. -/
theorem c2_registration_fanout {α : Type} (n : String) (L : List Listener)
    (p : α) (beh : Behaviour) (hnd : L.Nodup) :
    (L.foldl (fun (t : EventService) l => t.on n l) EventService.empty).emitTrace n p
        = L.map (fun l => (l, ⟨n, p⟩)) ∧
    (∀ l ∈ L,
      (((L.foldl (fun (t : EventService) l => t.on n l) EventService.empty).emitTrace n p).map
          Prod.fst).count l = 1) ∧
    (L.foldl (fun (t : EventService) l => t.on n l) EventService.empty).emitE beh n p
        = Except.ok (L.map (fun l => (l, ⟨n, p⟩)),
            L.filterMap (fun l => (beh l).map (listenerErrMsg n))) ∧
    (L.foldl (fun (t : EventService) l => t.on n l) EventService.empty).listenerCount n
        = L.length := by
  by_cases hne : L = []
  · subst hne
    refine ⟨rfl, by simp, ?_, rfl⟩
    show EventService.empty.emitE beh n p = _
    rw [emitE_eq]
    rfl
  · have hls := foldl_on_empty n L hnd hne
    have hlk : mapLookup
        (L.foldl (fun (t : EventService) l => t.on n l) EventService.empty).listeners n
        = some L := by
      rw [hls]; simp [mapLookup]
    have htrace : (L.foldl (fun (t : EventService) l => t.on n l)
        EventService.empty).emitTrace n p = L.map (fun l => (l, ⟨n, p⟩)) := by
      unfold EventService.emitTrace
      rw [hlk]
    refine ⟨htrace, ?_, ?_, ?_⟩
    · intro l hl
      rw [htrace]
      simp only [List.map_map]
      have hcomp : (Prod.fst ∘ fun l : Listener => (l, (⟨n, p⟩ : EventPayload α))) = id := rfl
      rw [hcomp, List.map_id]
      exact List.count_eq_one_of_mem hnd hl
    · rw [emitE_eq, htrace]
      unfold EventService.emitLog
      rw [hlk]
    · unfold EventService.listenerCount
      rw [hlk]

/-- Witness for C2 at a concrete batch. -/
theorem c2_registration_fanout_witness :
    ([3, 7].foldl (fun (t : EventService) l => t.on "x" l) EventService.empty).listenerCount "x"
      = 2 :=
  (c2_registration_fanout "x" [3, 7] (0 : Nat) (fun _ => none) (by decide)).2.2.2

/-- **C3.** Per-listener failure isolation: for every state, behaviour, event
name and payload, `emit` completes with `Except.ok` (a listener's exception is
never re-thrown to the caller) and its invocation trace is exactly the full
registered listener list — independent of which listeners throw — each with the
envelope.  The same holds for the broadcast bus's wrapped callback adapters
when a transport message is delivered. -/
theorem c3_listener_failure_isolation {α β : Type} (s : EventService) (beh : Behaviour)
    (n : String) (p : α) (bs : BroadcastService) (cbBeh : Nat → Option String)
    (c : String) (d : β) :
    s.emitE beh n p = Except.ok (s.emitTrace n p, s.emitLog beh n) ∧
    s.emitTrace n p = ((mapLookup s.listeners n).getD []).map (fun l => (l, ⟨n, p⟩)) ∧
    bs.deliverE cbBeh c d = Except.ok (bs.deliverTrace c d, bs.deliverLog cbBeh c) ∧
    bs.deliverTrace c d = ((mapLookup bs.listeners c).getD []).map (fun ent => (ent.2, d)) := by
  refine ⟨emitE_eq s beh n p, ?_, deliverE_eq bs cbBeh c d, rfl⟩
  unfold EventService.emitTrace
  cases mapLookup s.listeners n <;> simp

/-- **C4.** `off(n, l)` followed by `emit(n, p)` never invokes `l`; whenever
`off` leaves `n` with zero listeners, `n` is absent from the bus's list of
registered names; and `off` is a state-preserving no-op when `n` or `l` is
unknown.  Quantified over every state reachable by any call sequence from the
empty bus. -/
theorem c4_off_removes {α : Type} (ops : List EOp) (n : String) (l : Listener) (p : α) :
    l ∉ (((runEOps EventService.empty ops).off n l).emitTrace n p).map Prod.fst ∧
    (((runEOps EventService.empty ops).off n l).listenerCount n = 0 →
      n ∉ ((runEOps EventService.empty ops).off n l).eventTypes) ∧
    (mapLookup (runEOps EventService.empty ops).listeners n = none →
      (runEOps EventService.empty ops).off n l = runEOps EventService.empty ops) ∧
    (∀ ls, mapLookup (runEOps EventService.empty ops).listeners n = some ls → l ∉ ls →
      (runEOps EventService.empty ops).off n l = runEOps EventService.empty ops) := by
  have hWF := WF_runEOps ops
  refine ⟨off_emitTrace_not_mem _ hWF n l p,
          listenerCount_zero_not_mem _ (WF_off _ n l hWF) n, ?_, ?_⟩
  · intro h
    unfold EventService.off
    rw [h]
  · intro ls hlk hnm
    unfold EventService.off
    rw [hlk]
    show (if (setDelete ls l).length = 0 then _ else
      EventService.mk (mapSet (runEOps EventService.empty ops).listeners n (setDelete ls l)))
      = runEOps EventService.empty ops
    have herase : setDelete ls l = ls := List.erase_of_not_mem hnm
    have hne : ls ≠ [] := (hWF.2 _ (mapLookup_mem _ _ _ hlk)).1
    rw [if_neg (by rw [herase]; simpa using hne), herase,
        mapSet_lookup_self _ _ _ hlk]

/-- Witness for C4: apply it on a reachable two-listener state, discharging the
inner hypotheses at concrete values. -/
theorem c4_off_removes_witness :
    (0 : Listener) ∉ (EventService.emitTrace
      ((runEOps EventService.empty [EOp.on "x" 0]).off "x" 0) "x" (5 : Nat)).map Prod.fst ∧
    "x" ∉ ((runEOps EventService.empty [EOp.on "x" 0]).off "x" 0).eventTypes ∧
    (runEOps EventService.empty [EOp.on "x" 0]).off "y" 1
      = runEOps EventService.empty [EOp.on "x" 0] ∧
    (runEOps EventService.empty [EOp.on "x" 0]).off "x" 1
      = runEOps EventService.empty [EOp.on "x" 0] :=
  ⟨(c4_off_removes [EOp.on "x" 0] "x" 0 (5 : Nat)).1,
   (c4_off_removes [EOp.on "x" 0] "x" 0 (5 : Nat)).2.1 (by decide),
   (c4_off_removes [EOp.on "x" 0] "y" 1 (0 : Nat)).2.2.1 (by decide),
   (c4_off_removes [EOp.on "x" 0] "x" 1 (0 : Nat)).2.2.2 [0] (by decide) (by decide)⟩

/-- **C5.** Registering is idempotent under reference-equal re-registration: on
any reachable state, a second (or `k`-th) `on(n, l)` leaves the entire state —
hence `listenerCount(n)` — unchanged, and `emit(n, p)` still invokes `l`
exactly once. -/
theorem c5_on_idempotent {α : Type} (ops : List EOp) (n : String)
    (l : Listener) (k : Nat) (p : α) :
    ((runEOps EventService.empty ops).on n l).on n l
        = (runEOps EventService.empty ops).on n l ∧
    (fun t => EventService.on t n l)^[k] ((runEOps EventService.empty ops).on n l)
        = (runEOps EventService.empty ops).on n l ∧
    ((fun t => EventService.on t n l)^[k]
        ((runEOps EventService.empty ops).on n l)).listenerCount n
        = ((runEOps EventService.empty ops).on n l).listenerCount n ∧
    ((((runEOps EventService.empty ops).on n l).emitTrace n p).map Prod.fst).count l = 1 := by
  set s := runEOps EventService.empty ops with hs
  have hWF := WF_runEOps ops
  refine ⟨on_on s n l, on_iterate s n l k, by rw [on_iterate s n l k], ?_⟩
  have hlk := lookup_on s n l
  have hWF' : (s.on n l).WF := WF_on s n l hWF
  have hnodup := (hWF'.2 _ (mapLookup_mem _ _ _ hlk)).2
  have hmem : l ∈ setAdd ((mapLookup s.listeners n).getD []) l := mem_setAdd_self _ _
  unfold EventService.emitTrace
  rw [hlk]
  simp only [List.map_map]
  have hcomp : (Prod.fst ∘ fun l : Listener => (l, (⟨n, p⟩ : EventPayload α))) = id := rfl
  rw [hcomp, List.map_id]
  exact List.count_eq_one_of_mem hnodup hmem

/-- **C6.** Registry invariant of the local bus: in every state reachable from
the empty bus by any call sequence, every event name present as a key maps to a
non-empty listener set, and a name is registered iff its listener count is
positive. -/
theorem c6_registry_invariant (ops : List EOp) (n : String) :
    (∀ e ∈ (runEOps EventService.empty ops).listeners, e.2 ≠ []) ∧
    (n ∈ (runEOps EventService.empty ops).eventTypes ↔
      0 < (runEOps EventService.empty ops).listenerCount n) := by
  have hWF := WF_runEOps ops
  exact ⟨fun e he => (hWF.2 e he).1, mem_eventTypes_iff_pos _ hWF n⟩

/-- Witness for C6 on a concrete reachable state. -/
theorem c6_registry_invariant_witness :
    ("x" ∈ (runEOps EventService.empty [EOp.on "x" 2]).eventTypes ↔
      0 < (runEOps EventService.empty [EOp.on "x" 2]).listenerCount "x") ∧
    (("x" : String), ([2] : List Listener)).2 ≠ [] :=
  ⟨(c6_registry_invariant [EOp.on "x" 2] "x").2,
   (c6_registry_invariant [EOp.on "x" 2] "x").1 ("x", [2]) (by decide)⟩

/-! ## Invariants of the broadcast bus -/

theorem mapLookup_mapSet_isSome {β : Type} (m : List (String × β)) (k k' : String) (v : β)
    (h : (mapLookup m k').isSome) : (mapLookup (mapSet m k v) k').isSome := by
  by_cases hk : k' = k
  · subst hk; rw [mapLookup_mapSet_self]; rfl
  · rwa [mapLookup_mapSet_ne _ _ _ _ hk]

theorem mapLookup_isSome_of_delete {β : Type} (m : List (String × β)) (k k' : String)
    (h : (mapLookup (mapDelete m k) k').isSome) : (mapLookup m k').isSome := by
  rw [mapLookup_isSome_iff_mem] at h ⊢
  exact (mapDelete_keys m k).subset h

/-- Channels of the post-`subscribe` state: exactly those after the lazy-create
block. -/
theorem subscribe_channels (s : BroadcastService) (c : String) (cb : Nat) :
    (s.subscribe c cb).2.channels = (s.subscribeInit c).channels := by
  unfold BroadcastService.subscribe
  cases hm : mapLookup (s.subscribeInit c).listeners c <;> simp [hm]

/-- Handle counter of the post-`subscribe` state. -/
theorem subscribe_handleCounter (s : BroadcastService) (c : String) (cb : Nat) :
    (s.subscribe c cb).2.handleCounter = (s.subscribeInit c).handleCounter := by
  unfold BroadcastService.subscribe
  cases hm : mapLookup (s.subscribeInit c).listeners c <;> simp [hm]

theorem WFB_subscribeInit (s : BroadcastService) (c : String) (h : s.WFB) :
    (s.subscribeInit c).WFB := by
  obtain ⟨hc, hl, hcov⟩ := h
  unfold BroadcastService.subscribeInit
  by_cases hch : (mapLookup s.channels c).isSome
  · rw [if_pos hch]; exact ⟨hc, hl, hcov⟩
  · rw [if_neg hch]
    refine ⟨mapSet_keys_nodup _ _ _ hc, mapSet_keys_nodup _ _ _ hl, ?_⟩
    intro c' hc'
    show (mapLookup (mapSet s.channels c s.handleCounter) c').isSome
    have hc'' : (mapLookup (mapSet s.listeners c []) c').isSome := hc'
    by_cases hcc : c' = c
    · subst hcc; rw [mapLookup_mapSet_self]; rfl
    · rw [mapLookup_mapSet_ne _ _ _ _ hcc]
      rw [mapLookup_mapSet_ne _ _ _ _ hcc] at hc''
      exact hcov c' hc''

theorem subscribe_listeners_none (s : BroadcastService) (c : String) (cb : Nat)
    (hm : mapLookup (s.subscribeInit c).listeners c = none) :
    (s.subscribe c cb).2.listeners = (s.subscribeInit c).listeners := by
  unfold BroadcastService.subscribe
  simp [hm]

theorem subscribe_listeners_some (s : BroadcastService) (c : String) (cb : Nat)
    (m : List (String × Nat)) (hm : mapLookup (s.subscribeInit c).listeners c = some m) :
    (s.subscribe c cb).2.listeners =
      mapSet (s.subscribeInit c).listeners c
        (mapSet m (mkListenerId (s.listenerIdCounter + 1)) cb) := by
  unfold BroadcastService.subscribe
  simp [hm, subscribeInit_counter]

theorem WFB_applyBOp (s : BroadcastService) (op : BOp) (h : s.WFB) :
    (applyBOp s op).WFB := by
  cases op with
  | subscribe c cb =>
      obtain ⟨hc1, hl1, hcov1⟩ := WFB_subscribeInit s c h
      show (s.subscribe c cb).2.WFB
      cases hm : mapLookup (s.subscribeInit c).listeners c with
      | none =>
          refine ⟨?_, ?_, ?_⟩
          · rw [subscribe_channels]; exact hc1
          · rw [subscribe_listeners_none s c cb hm]; exact hl1
          · intro c' hc'
            rw [subscribe_listeners_none s c cb hm] at hc'
            rw [subscribe_channels]
            exact hcov1 c' hc'
      | some m =>
          refine ⟨?_, ?_, ?_⟩
          · rw [subscribe_channels]; exact hc1
          · rw [subscribe_listeners_some s c cb m hm]
            exact mapSet_keys_nodup _ _ _ hl1
          · intro c' hc'
            rw [subscribe_listeners_some s c cb m hm] at hc'
            rw [subscribe_channels]
            by_cases hcc : c' = c
            · subst hcc
              exact hcov1 c' (by simp [hm])
            · rw [mapLookup_mapSet_ne _ _ _ _ hcc] at hc'
              exact hcov1 c' hc'
  | unsubscribe c lid =>
      show (s.unsubscribe c lid).WFB
      unfold BroadcastService.unsubscribe
      cases hch : mapLookup s.channels c with
      | none => cases hls : mapLookup s.listeners c with
          | none => exact h
          | some m => exact h
      | some hdl =>
          cases hls : mapLookup s.listeners c with
          | none => exact h
          | some m =>
              show (match mapLookup m lid with
                | some _ => { s with listeners := mapSet s.listeners c (mapDelete m lid) }
                | none => s).WFB
              cases hml : mapLookup m lid with
              | none => exact h
              | some cb0 =>
                  obtain ⟨hc1, hl1, hcov⟩ := h
                  refine ⟨hc1, ?_, ?_⟩
                  · show ((mapSet s.listeners c (mapDelete m lid)).map Prod.fst).Nodup
                    exact mapSet_keys_nodup _ _ _ hl1
                  · intro c' hc'
                    show (mapLookup s.channels c').isSome
                    have hc'' : (mapLookup (mapSet s.listeners c (mapDelete m lid)) c').isSome :=
                      hc'
                    by_cases hcc : c' = c
                    · subst hcc; simp [hch]
                    · rw [mapLookup_mapSet_ne _ _ _ _ hcc] at hc''
                      exact hcov c' hc''
  | broadcast c =>
      show (s.broadcast c).WFB
      unfold BroadcastService.broadcast
      by_cases hch : (mapLookup s.channels c).isSome
      · rw [if_pos hch]; exact h
      · rw [if_neg hch]
        obtain ⟨hc1, hl1, hcov⟩ := h
        exact ⟨mapSet_keys_nodup _ _ _ hc1, hl1,
          fun c' hc' => mapLookup_mapSet_isSome _ _ _ _ (hcov c' hc')⟩
  | close c =>
      show (s.close c).WFB
      unfold BroadcastService.close
      cases hch : mapLookup s.channels c with
      | none => cases hls : mapLookup s.listeners c with
          | none => exact h
          | some m => exact h
      | some hdl =>
          cases hls : mapLookup s.listeners c with
          | none => exact h
          | some m =>
              show ({ s with channels := mapDelete s.channels c,
                              listeners := mapDelete s.listeners c } : BroadcastService).WFB
              obtain ⟨hc1, hl1, hcov⟩ := h
              refine ⟨mapDelete_keys_nodup _ _ hc1, mapDelete_keys_nodup _ _ hl1, ?_⟩
              intro c' hc'
              have hc'' : (mapLookup (mapDelete s.listeners c) c').isSome := hc'
              by_cases hcc : c' = c
              · subst hcc
                rw [mapLookup_mapDelete_self _ _ hl1] at hc''
                exact absurd hc'' (by simp)
              · rw [mapLookup_mapDelete_ne _ _ _ hcc] at hc''
                show (mapLookup (mapDelete s.channels c) c').isSome
                rw [mapLookup_mapDelete_ne _ _ _ hcc]
                exact hcov c' hc''
  | closeAll =>
      exact ⟨List.nodup_nil, List.nodup_nil,
        fun c' hc' => absurd hc' (by simp [mapLookup])⟩

theorem WFB_runBOps (ops : List BOp) : (runBOps BroadcastService.init ops).WFB := by
  suffices hgen : ∀ s : BroadcastService, s.WFB → (runBOps s ops).WFB from
    hgen _ ⟨List.nodup_nil, List.nodup_nil, fun c' hc' => absurd hc' (by simp [mapLookup])⟩
  induction ops with
  | nil => intro s hs; exact hs
  | cons op ops ih => intro s hs; exact ih _ (WFB_applyBOp s op hs)

theorem mapDelete_noop {β : Type} (m : List (String × β)) (k : String)
    (h : mapLookup m k = none) : mapDelete m k = m := by
  induction m with
  | nil => rfl
  | cons e rest ih =>
      obtain ⟨k', v'⟩ := e
      by_cases h1 : k = k'
      · rw [h1] at h; simp [mapLookup] at h
      · simp only [mapLookup, if_neg h1] at h
        simp [mapDelete, h1, ih h]

/-- **C1.** Code behaviour at the claim's failing input.  A channel made active
only by `broadcast` has a transport-handle entry but no adapter-map entry, so
`close` — whose whole body is guarded by `if (channel && listeners)` — silently
does nothing: the channel stays active and in `getActiveChannels`.  By contrast
a channel with an adapter-map entry (created via `subscribe`) is fully removed
by `close`, and a subsequent `broadcast` then recreates it as active. -/
theorem c1_close_code_behaviour :
    ((BroadcastService.init.broadcast "a").close "a" = BroadcastService.init.broadcast "a") ∧
    ((BroadcastService.init.broadcast "a").close "a").isChannelActive "a" = true ∧
    ("a" ∈ ((BroadcastService.init.broadcast "a").close "a").getActiveChannels) ∧
    mapLookup (BroadcastService.init.broadcast "a").listeners "a" = none ∧
    ((BroadcastService.init.subscribe "a" 0).2.close "a").isChannelActive "a" = false ∧
    ((BroadcastService.init.subscribe "a" 0).2.close "a").getActiveChannels = [] ∧
    mapLookup ((BroadcastService.init.subscribe "a" 0).2.close "a").listeners "a" = none ∧
    (((BroadcastService.init.subscribe "a" 0).2.close "a").broadcast "a").isChannelActive "a"
      = true := by
  decide

/-- **C7.** Listener-id uniqueness: over any call sequence on one bus instance,
the ids returned by `subscribe` are the formatted values (`listener_` prefix
plus counter) of a strictly increasing list of counter values, all bounded by
the final per-instance counter, and the returned id strings are pairwise
distinct. -/
theorem c7_listener_ids_unique (ops : List BOp) :
    ∃ ks : List Nat,
      collectIds BroadcastService.init ops = ks.map mkListenerId ∧
      ks.Pairwise (· < ·) ∧
      (∀ k ∈ ks, 0 < k ∧ k ≤ (runBOps BroadcastService.init ops).listenerIdCounter) ∧
      (collectIds BroadcastService.init ops).Nodup := by
  obtain ⟨ks, hmap, hpw, hbound⟩ := collectIds_spec ops BroadcastService.init
  refine ⟨ks, hmap, hpw, fun k hk => hbound k hk, ?_⟩
  rw [hmap]
  have hknd : ks.Nodup := hpw.imp (fun hlt => Nat.ne_of_lt hlt)
  exact hknd.map mkListenerId_injective

/-- Witness for C7: two subscriptions to the same channel with the same
callback still give distinct ids. -/
theorem c7_listener_ids_unique_witness :
    (collectIds BroadcastService.init [BOp.subscribe "a" 0, BOp.subscribe "a" 0]).Nodup ∧
    collectIds BroadcastService.init [BOp.subscribe "a" 0, BOp.subscribe "a" 0]
      = ["listener_1", "listener_2"] := by
  refine ⟨?_, by decide⟩
  obtain ⟨ks, hmap, hpw, hb, hnd⟩ :=
    c7_listener_ids_unique [BOp.subscribe "a" 0, BOp.subscribe "a" 0]
  exact hnd

/-- **C8.** Frame property of `unsubscribe`: it removes at most the single
adapter registered under the given id on the given channel; the transport-handle
map (hence `getActiveChannels`), the counters, every other channel's adapter
map, and every other id on the same channel are unchanged — also when the
removed adapter was the channel's last.  When the channel or the id is unknown
it is a state-preserving no-op. -/
theorem c8_unsubscribe_frame (s : BroadcastService) (c lid : String) :
    (s.unsubscribe c lid).channels = s.channels ∧
    (s.unsubscribe c lid).listenerIdCounter = s.listenerIdCounter ∧
    (s.unsubscribe c lid).handleCounter = s.handleCounter ∧
    (s.unsubscribe c lid).getActiveChannels = s.getActiveChannels ∧
    (∀ c', c' ≠ c → mapLookup (s.unsubscribe c lid).listeners c'
      = mapLookup s.listeners c') ∧
    (∀ m, (mapLookup s.channels c).isSome → mapLookup s.listeners c = some m →
      mapLookup (s.unsubscribe c lid).listeners c = some (mapDelete m lid) ∧
      (mapDelete m lid).Sublist m ∧
      (∀ lid', lid' ≠ lid → mapLookup (mapDelete m lid) lid' = mapLookup m lid')) ∧
    ((mapLookup s.channels c = none ∨ mapLookup s.listeners c = none) →
      s.unsubscribe c lid = s) ∧
    (∀ m, mapLookup s.listeners c = some m → mapLookup m lid = none →
      s.unsubscribe c lid = s) := by
  cases hch : mapLookup s.channels c with
  | none =>
      have hu : s.unsubscribe c lid = s := by
        unfold BroadcastService.unsubscribe
        rw [hch]
      refine ⟨by rw [hu], by rw [hu], by rw [hu], by rw [hu], fun c' _ => by rw [hu],
        ?_, fun _ => hu, fun m _ _ => hu⟩
      intro m hsome _
      simp at hsome
  | some hdl =>
      cases hls : mapLookup s.listeners c with
      | none =>
          have hu : s.unsubscribe c lid = s := by
            unfold BroadcastService.unsubscribe
            rw [hch, hls]
          refine ⟨by rw [hu], by rw [hu], by rw [hu], by rw [hu], fun c' _ => by rw [hu],
            ?_, fun _ => hu, ?_⟩
          · intro m _ hm
            exact Option.noConfusion hm
          · intro m hm _
            exact Option.noConfusion hm
      | some m0 =>
          cases hml : mapLookup m0 lid with
          | none =>
              have hu : s.unsubscribe c lid = s := by
                unfold BroadcastService.unsubscribe
                rw [hch, hls]
                show (match mapLookup m0 lid with
                  | some _ => { s with listeners := mapSet s.listeners c (mapDelete m0 lid) }
                  | none => s) = s
                rw [hml]
              refine ⟨by rw [hu], by rw [hu], by rw [hu], by rw [hu], fun c' _ => by rw [hu],
                ?_, fun _ => hu, fun _ _ _ => hu⟩
              intro m _ hm
              injection hm with hm'
              subst hm'
              rw [hu, hls, mapDelete_noop m0 lid hml]
              exact ⟨rfl, List.Sublist.refl m0, fun lid' _ => rfl⟩
          | some cb0 =>
              have hu : s.unsubscribe c lid
                  = { s with listeners := mapSet s.listeners c (mapDelete m0 lid) } := by
                unfold BroadcastService.unsubscribe
                rw [hch, hls]
                show (match mapLookup m0 lid with
                  | some _ => { s with listeners := mapSet s.listeners c (mapDelete m0 lid) }
                  | none => s)
                  = { s with listeners := mapSet s.listeners c (mapDelete m0 lid) }
                rw [hml]
              refine ⟨by rw [hu], by rw [hu], by rw [hu], by rw [hu]; rfl, ?_, ?_, ?_, ?_⟩
              · intro c' hne
                rw [hu]
                show mapLookup (mapSet s.listeners c (mapDelete m0 lid)) c'
                  = mapLookup s.listeners c'
                exact mapLookup_mapSet_ne _ _ _ _ hne
              · intro m _ hm
                injection hm with hm'
                subst hm'
                rw [hu]
                refine ⟨?_, mapDelete_sublist m0 lid,
                  fun lid' hne => mapLookup_mapDelete_ne _ _ _ hne⟩
                show mapLookup (mapSet s.listeners c (mapDelete m0 lid)) c
                  = some (mapDelete m0 lid)
                exact mapLookup_mapSet_self _ _ _
              · rintro (h | h)
                · exact Option.noConfusion h
                · exact Option.noConfusion h
              · intro m hm hnone
                injection hm with hm'
                subst hm'
                rw [hml] at hnone
                exact Option.noConfusion hnone

/-- Witness for C8 at a concrete two-listener channel. -/
theorem c8_unsubscribe_frame_witness :
    (BroadcastService.unsubscribe
      (BroadcastService.mk [("a", 0)] [("a", [("listener_1", 5), ("listener_2", 6)])] 2 1)
      "a" "listener_1").channels = [("a", 0)] ∧
    mapLookup (BroadcastService.unsubscribe
      (BroadcastService.mk [("a", 0)] [("a", [("listener_1", 5), ("listener_2", 6)])] 2 1)
      "a" "listener_1").listeners "a"
      = some (mapDelete [("listener_1", 5), ("listener_2", 6)] "listener_1") ∧
    BroadcastService.unsubscribe
      (BroadcastService.mk [("a", 0)] [("a", [("listener_1", 5), ("listener_2", 6)])] 2 1)
      "b" "listener_9"
      = BroadcastService.mk [("a", 0)] [("a", [("listener_1", 5), ("listener_2", 6)])] 2 1 :=
  ⟨(c8_unsubscribe_frame
      (BroadcastService.mk [("a", 0)] [("a", [("listener_1", 5), ("listener_2", 6)])] 2 1)
      "a" "listener_1").1,
   ((c8_unsubscribe_frame
      (BroadcastService.mk [("a", 0)] [("a", [("listener_1", 5), ("listener_2", 6)])] 2 1)
      "a" "listener_1").2.2.2.2.2.1 [("listener_1", 5), ("listener_2", 6)]
      (by decide) (by decide)).1,
   (c8_unsubscribe_frame
      (BroadcastService.mk [("a", 0)] [("a", [("listener_1", 5), ("listener_2", 6)])] 2 1)
      "b" "listener_9").2.2.2.2.2.2.1 (Or.inl (by decide))⟩

/-- **C9.** `broadcast` never raises to the caller: for every state, channel
name, payload (including an omitted one) and transport outcome, the call
completes with `Except.ok`; a transport failure is converted into exactly one
`console.error` line built from the channel name; and broadcasting to a channel
never subscribed before is legal — afterwards the channel is active. -/
theorem c9_broadcast_never_raises {α : Type} (s : BroadcastService) (c : String)
    (d : Option α) (sendErr : Option String) :
    s.broadcastE c d sendErr
      = Except.ok (s.broadcast c, (sendErr.map (broadcastErrMsg c)).toList) ∧
    (s.broadcast c).isChannelActive c = true := by
  constructor
  · unfold BroadcastService.broadcastE BroadcastService.broadcast postMessage
    cases sendErr <;>
      simp [tryCatch, tryCatchThe, MonadExceptOf.tryCatch, Except.tryCatch, Bind.bind,
        Except.bind, pure, Except.pure, Option.toList]
  · unfold BroadcastService.broadcast BroadcastService.isChannelActive
    by_cases hc : (mapLookup s.channels c).isSome
    · rw [if_pos hc]; exact hc
    · rw [if_neg hc]
      show (mapLookup (mapSet s.channels c s.handleCounter) c).isSome = true
      rw [mapLookup_mapSet_self]
      rfl

/-- **C10.** In every reachable state every adapter-map key is also a
transport-handle key; `broadcast` on an unknown channel creates a handle-only
entry (active channel, no adapter map); `closeAll` clears both maps, removing
handle-only channels.  At the failing input, however, `subscribe` on a
handle-only channel throws (the adapter map for the channel is missing), leaves
the channel handle-only, and registers nothing. -/
theorem c10_handle_only_channels (ops : List BOp) (c : String) :
    (∀ c', (mapLookup (runBOps BroadcastService.init ops).listeners c').isSome →
      (mapLookup (runBOps BroadcastService.init ops).channels c').isSome) ∧
    (mapLookup (runBOps BroadcastService.init ops).channels c = none →
      ((runBOps BroadcastService.init ops).broadcast c).isChannelActive c = true ∧
      mapLookup ((runBOps BroadcastService.init ops).broadcast c).listeners c = none) ∧
    ((runBOps BroadcastService.init ops).closeAll.channels = [] ∧
      (runBOps BroadcastService.init ops).closeAll.listeners = []) ∧
    (((BroadcastService.init.broadcast "a").subscribe "a" 7).1
        = Except.error "TypeError: undefined listener map" ∧
      mapLookup ((BroadcastService.init.broadcast "a").subscribe "a" 7).2.listeners "a"
        = none ∧
      ((BroadcastService.init.broadcast "a").subscribe "a" 7).2.isChannelActive "a"
        = true) := by
  obtain ⟨hc1, hl1, hcov⟩ := WFB_runBOps ops
  refine ⟨hcov, ?_, ⟨rfl, rfl⟩, ⟨rfl, rfl, rfl⟩⟩
  intro hnone
  have hlnone : mapLookup (runBOps BroadcastService.init ops).listeners c = none := by
    cases hl : mapLookup (runBOps BroadcastService.init ops).listeners c with
    | none => rfl
    | some m =>
        have := hcov c (by simp [hl])
        rw [hnone] at this
        simp at this
  constructor
  · show ((runBOps BroadcastService.init ops).broadcast c).isChannelActive c = true
    unfold BroadcastService.broadcast BroadcastService.isChannelActive
    rw [if_neg (by simp [hnone])]
    show (mapLookup (mapSet (runBOps BroadcastService.init ops).channels c
      (runBOps BroadcastService.init ops).handleCounter) c).isSome = true
    rw [mapLookup_mapSet_self]
    rfl
  · show mapLookup ((runBOps BroadcastService.init ops).broadcast c).listeners c = none
    unfold BroadcastService.broadcast
    rw [if_neg (by simp [hnone])]
    exact hlnone

/-- Witness for C10: the handle-only transition applied on the empty run. -/
theorem c10_handle_only_channels_witness :
    ((runBOps BroadcastService.init []).broadcast "n").isChannelActive "n" = true ∧
    mapLookup ((runBOps BroadcastService.init []).broadcast "n").listeners "n" = none :=
  (c10_handle_only_channels [] "n").2.1 (by decide)

end BES
